import Mathlib

/-!
Verification of the stock recommendation scorer and its HTTP limit handling.

The definitions below are a shallow embedding of the Go code:
* `internal/usecase/stock_usecase.go` (the scorer: `GetRecommendations`,
  `calculateStockScore`, `getActionScore`, `getRatingImprovementScore`,
  `getRatingValue`, `calculateTargetPriceIncrease`, `parsePrice`,
  `getRecencyScore`, `getBrokerageScore`);
* `internal/handler/stock_handler.go` (`GetRecommendations` handler,
  `parseIntQuery`).

Go `float64` values are modelled as exact rationals (`ℚ`); time instants are
modelled as rational numbers of hours, so that `time.Since(t).Hours()` becomes
`now - t`.  Go standard-library helpers used by the code (`strings.ToLower`,
`strings.TrimSpace`, `strings.Contains`, `strings.ReplaceAll`,
`strconv.ParseFloat`, `strconv.Atoi`, `fmt.Sprintf "%.1f"`) are modelled by
the string helpers below, restricted to the ASCII/decimal fragment the
repository exercises.
-/

namespace StockBackend

/-- Models Go strings.ToLower (ASCII fragment). -/
def toLowerStr (s : String) : String := String.mk (s.data.map Char.toLower)

/-- Models Go strings.TrimSpace: drop leading and trailing whitespace. -/
def trimStr (s : String) : String :=
  String.mk (((s.data.dropWhile Char.isWhitespace).reverse.dropWhile Char.isWhitespace).reverse)

/-- Decides whether needle occurs contiguously inside the second list. -/
def containsSeq (needle : List Char) : List Char → Bool
  | [] => needle.isEmpty
  | c :: rest => needle.isPrefixOf (c :: rest) || containsSeq needle rest

/-- Models Go strings.Contains: sub occurs contiguously inside s. -/
def strContains (s sub : String) : Bool := containsSeq sub.data s.data

/-- Models Go strings.ReplaceAll with a single-character pattern and empty replacement. -/
def removeChar (c : Char) (s : String) : String := String.mk (s.data.filter (fun d => d ≠ c))

/-- Fuel-indexed removal of every occurrence of a character sequence. -/
def removeSeqAux (pat : List Char) : Nat → List Char → List Char
  | 0, l => l
  | _ + 1, [] => []
  | fuel + 1, c :: rest =>
    if pat.isPrefixOf (c :: rest) then removeSeqAux pat fuel ((c :: rest).drop pat.length)
    else c :: removeSeqAux pat fuel rest

/-- Models Go strings.ReplaceAll with a multi-character pattern and empty replacement. -/
def removeSeq (pat : String) (s : String) : String :=
  String.mk (removeSeqAux pat.data s.data.length s.data)

/-- Reads a digit string as a natural number. -/
def digitsToNat (l : List Char) : Nat := l.foldl (fun n c => n * 10 + (c.toNat - 48)) 0

/-- Powers of ten as rationals. -/
def pow10 : Nat → ℚ
  | 0 => 1
  | n + 1 => 10 * pow10 n

/-- Models the Go standard library strconv.ParseFloat, restricted to plain decimal
syntax: optional sign, digits with an optional fractional part, optional decimal
exponent.  Inputs outside this fragment (including "Inf"/"NaN") yield none. -/
def parseFloatQ (s : String) : Option ℚ :=
  let signAndRest : ℚ × List Char :=
    match s.data with
    | '+' :: rest => (1, rest)
    | '-' :: rest => (-1, rest)
    | rest => (1, rest)
  let sign := signAndRest.1
  let l := signAndRest.2
  let intPart := l.takeWhile Char.isDigit
  let l := l.dropWhile Char.isDigit
  let fracAndRest : List Char × List Char :=
    match l with
    | '.' :: rest => (rest.takeWhile Char.isDigit, rest.dropWhile Char.isDigit)
    | rest => ([], rest)
  let fracPart := fracAndRest.1
  let l := fracAndRest.2
  if intPart.isEmpty && fracPart.isEmpty then none
  else
    let mant : ℚ := sign * (digitsToNat (intPart ++ fracPart) : ℚ) / pow10 fracPart.length
    match l with
    | [] => some mant
    | e :: rest =>
      if e = 'e' ∨ e = 'E' then
        let esignAndRest : ℤ × List Char :=
          match rest with
          | '+' :: r2 => (1, r2)
          | '-' :: r2 => (-1, r2)
          | r2 => (1, r2)
        let esign := esignAndRest.1
        let rest := esignAndRest.2
        let eDigits := rest.takeWhile Char.isDigit
        let rest := rest.dropWhile Char.isDigit
        if eDigits.isEmpty then none
        else if rest.isEmpty then
          if esign = 1 then some (mant * pow10 (digitsToNat eDigits))
          else some (mant / pow10 (digitsToNat eDigits))
        else none
      else none

/-- Embeds parsePrice: strips currency symbols, commas and spaces, then reads a
decimal number; any unparseable input degrades to 0. -/
def parsePrice (priceStr : String) : ℚ :=
  let p := trimStr priceStr
  let p := removeChar '$' p
  let p := removeSeq "â‚¬" p
  let p := removeChar ',' p
  let p := removeChar ' ' p
  match parseFloatQ p with
  | none => 0
  | some v => v

/-- Embeds calculateTargetPriceIncrease: percentage change between the two parsed
target prices, or 0 when either parsed price is non-positive. -/
def calculateTargetPriceIncrease (targetFrom targetTo : String) : ℚ :=
  let fromP := parsePrice targetFrom
  let toP := parsePrice targetTo
  if fromP ≤ 0 ∨ toP ≤ 0 then 0
  else ((toP - fromP) / fromP) * 100

/-- Embeds the ratingValues map literal of getRatingImprovementScore. -/
def ratingValues : List (String × ℚ) :=
  [("strong-buy", 5), ("strong buy", 5),
   ("buy", 4), ("speculative buy", 4), ("overweight", 4), ("outperform", 4),
   ("market outperform", 4), ("sector outperform", 4), ("positive", 4),
   ("hold", 3), ("neutral", 3), ("in-line", 3), ("market perform", 3),
   ("sector perform", 3), ("equal weight", 3), ("equal-weight", 3),
   ("underweight", 2), ("underperform", 2), ("reduce", 2),
   ("sell", 1)]

/-- Embeds getRatingValue: lower-case and trim, empty or unknown ratings default
to the neutral value 3. -/
def getRatingValue (rating : String) : ℚ :=
  let r := toLowerStr (trimStr rating)
  if r = "" then 3
  else
    match ratingValues.lookup r with
    | some v => v
    | none => 3

/-- Embeds getRatingImprovementScore: destination value scaled to 2-10 plus a
signed improvement bonus of twice the value delta. -/
def getRatingImprovementScore (ratingFrom ratingTo : String) : ℚ :=
  let fromValue := getRatingValue ratingFrom
  let toValue := getRatingValue ratingTo
  let improvementBonus : ℚ :=
    if fromValue < toValue then (toValue - fromValue) * 2
    else if toValue < fromValue then (toValue - fromValue) * 2
    else 0
  toValue * 2 + improvementBonus

/-- Embeds getActionScore: case-insensitive substring classification of the
action text, first match wins. -/
def getActionScore (action : String) : ℚ :=
  let a := toLowerStr action
  if strContains a "upgrade" then 10
  else if strContains a "initiated" || strContains a "initiate" then 8
  else if strContains a "target" && strContains a "raised" then 7
  else if strContains a "reiterate" || strContains a "maintain" then 6
  else if strContains a "target" && strContains a "lowered" then 3
  else if strContains a "downgrade" then 2
  else 5

/-- Embeds getRecencyScore; now and t are instants measured in hours, so that
daysSince is the elapsed hours divided by 24. -/
def getRecencyScore (now t : ℚ) : ℚ :=
  let daysSince := (now - t) / 24
  if daysSince ≤ 1 then 10
  else if daysSince ≤ 7 then 8
  else if daysSince ≤ 30 then 6
  else if daysSince ≤ 90 then 4
  else 2

/-- Embeds the topTier list of getBrokerageScore. -/
def topTier : List String :=
  ["goldman sachs", "morgan stanley", "jp morgan", "jpmorgan", "barclays"]

/-- Embeds the midTier list of getBrokerageScore. -/
def midTier : List String :=
  ["citigroup", "credit suisse", "deutsche bank", "ubs", "wells fargo"]

/-- Embeds getBrokerageScore: empty brokerage is neutral 5, the tier lists give
10 and 8 by substring match, anything else 6. -/
def getBrokerageScore (brokerage : String) : ℚ :=
  let b := toLowerStr (trimStr brokerage)
  if b = "" then 5
  else if topTier.any (fun top => strContains b top) then 10
  else if midTier.any (fun mid => strContains b mid) then 8
  else 6

/-- Models the Go standard library fmt verb %.1f: renders a number with one
decimal digit, rounding to the nearest tenth. -/
def formatOneDec (q : ℚ) : String :=
  let scaled : ℤ := round (q * 10)
  let sign := if scaled < 0 then "-" else ""
  sign ++ toString (scaled.natAbs / 10) ++ "." ++ toString (scaled.natAbs % 10)

/-- The fields of domain.Stock read by the scorer.  Event time is a rational
number of hours (see getRecencyScore). -/
structure Stock where
  ticker : String
  company : String
  action : String
  brokerage : String
  ratingFrom : String
  ratingTo : String
  targetFrom : String
  targetTo : String
  time : ℚ

/-- Models Go strings.Join with separator "; ". -/
def joinSemicolon : List String → String
  | [] => ""
  | [s] => s
  | s :: rest => s ++ "; " ++ joinSemicolon rest

/-- Embeds calculateStockScore: returns (composite score, reason string, target
increase percentage).  The score is the weighted sum of the five sub-scores,
the reason joins the triggered highlights and falls back to "Positive outlook"
when the joined string is empty. -/
def calculateStockScore (now : ℚ) (stock : Stock) : ℚ × String × ℚ :=
  let actionScore := getActionScore stock.action
  let score := actionScore * 0.30
  let reasons : List String := if 3 < actionScore then ["Recent " ++ stock.action] else []
  let ratingScore := getRatingImprovementScore stock.ratingFrom stock.ratingTo
  let score := score + ratingScore * 0.25
  let reasons :=
    if 3 < ratingScore then reasons ++ ["Rating improved to " ++ stock.ratingTo] else reasons
  let targetIncrease := calculateTargetPriceIncrease stock.targetFrom stock.targetTo
  let score :=
    if targetIncrease ≠ 0 then
      let targetScore := targetIncrease / 2
      let targetScore := if 10 < targetScore then 10 else targetScore
      let targetScore := if targetScore < -10 then -10 else targetScore
      score + targetScore * 0.20
    else score
  let reasons :=
    if targetIncrease ≠ 0 then
      if 5 < targetIncrease then
        reasons ++ [formatOneDec targetIncrease ++ "% price target increase"]
      else if targetIncrease < -5 then
        reasons ++ [formatOneDec targetIncrease ++ "% price target decrease"]
      else reasons
    else reasons
  let score := score + getRecencyScore now stock.time * 0.15
  let brokerageScore := getBrokerageScore stock.brokerage
  let score := score + brokerageScore * 0.10
  let reasons :=
    if 8 ≤ brokerageScore ∧ stock.brokerage ≠ "" then
      reasons ++ ["Rated by " ++ stock.brokerage]
    else reasons
  let reason := joinSemicolon reasons
  let reason := if reason = "" then "Positive outlook" else reason
  (score, reason, targetIncrease)

/-- The fields of domain.StockRecommendation. -/
structure StockRecommendation where
  stock : Stock
  score : ℚ
  reason : String
  targetIncrease : ℚ

/-- One pass of the inner loop of the sort in GetRecommendations, for a fixed
outer index holding x: walking the remaining slots left to right, whenever the
visited element has a strictly larger score it is exchanged with the current
element at the outer index.  Returns the element left at the outer index and
the suffix as rearranged by the pass. -/
def bubbleMax (x : StockRecommendation) :
    List StockRecommendation → StockRecommendation × List StockRecommendation
  | [] => (x, [])
  | y :: ys =>
    if x.score < y.score then
      ((bubbleMax y ys).1, x :: (bubbleMax y ys).2)
    else
      ((bubbleMax x ys).1, y :: (bubbleMax x ys).2)

/-- The outer loop of the sort in GetRecommendations, indexed by fuel: each
iteration fixes the next slot via a bubbleMax pass over the rest. -/
def exchangeSortAux : Nat → List StockRecommendation → List StockRecommendation
  | 0, l => l
  | _ + 1, [] => []
  | fuel + 1, x :: xs => (bubbleMax x xs).1 :: exchangeSortAux fuel (bubbleMax x xs).2

/-- Embeds the nested-loop exchange sort of GetRecommendations (descending by
score, swapping on a strict comparison). -/
def exchangeSort (l : List StockRecommendation) : List StockRecommendation :=
  exchangeSortAux l.length l

/-- Embeds GetRecommendations on the stock list the repository returns: empty
input short-circuits to an empty list, otherwise each stock is scored, the
recommendations are exchange-sorted by score descending, and the list is
truncated to limit entries when 0 < limit < length. -/
def GetRecommendations (now : ℚ) (stocks : List Stock) (limit : ℤ) :
    List StockRecommendation :=
  if stocks.length = 0 then []
  else
    let recommendations := stocks.map (fun stock =>
      { stock := stock
        score := (calculateStockScore now stock).1
        reason := (calculateStockScore now stock).2.1
        targetIncrease := (calculateStockScore now stock).2.2 })
    let recommendations := exchangeSort recommendations
    if 0 < limit ∧ limit < (recommendations.length : ℤ) then recommendations.take limit.toNat
    else recommendations

/-- Models the Go standard library strconv.Atoi with unbounded integers:
optional sign followed by one or more digits, anything else is rejected. -/
def atoi (s : String) : Option ℤ :=
  let signAndRest : ℤ × List Char :=
    match s.data with
    | '+' :: rest => (1, rest)
    | '-' :: rest => (-1, rest)
    | rest => (1, rest)
  let sign := signAndRest.1
  let l := signAndRest.2
  if l.isEmpty then none
  else if l.all Char.isDigit then some (sign * (digitsToNat l : ℤ))
  else none

/-- Embeds parseIntQuery of the HTTP handler: an absent (empty) or non-numeric
query value falls back to the default. -/
def parseIntQuery (value : String) (defaultValue : ℤ) : ℤ :=
  if value = "" then defaultValue
  else
    match atoi value with
    | none => defaultValue
    | some n => n

/-- Embeds the limit normalization of the GetRecommendations handler: default
10, cap at 50, and replace values below 1 by 10. -/
def recommendationsLimit (value : String) : ℤ :=
  let limit := parseIntQuery value 10
  let limit := if 50 < limit then 50 else limit
  if limit < 1 then 10 else limit

/-- States the highlight list of the specification: fixed order action, rating,
price, brokerage, each guarded by the documented trigger condition; recency
appears nowhere. -/
def specHighlights (s : Stock) : List String :=
  (if 3 < getActionScore s.action then ["Recent " ++ s.action] else []) ++
  (if 3 < getRatingImprovementScore s.ratingFrom s.ratingTo then
      ["Rating improved to " ++ s.ratingTo] else []) ++
  (if 5 < calculateTargetPriceIncrease s.targetFrom s.targetTo then
      [formatOneDec (calculateTargetPriceIncrease s.targetFrom s.targetTo) ++
        "% price target increase"]
    else if calculateTargetPriceIncrease s.targetFrom s.targetTo < -5 then
      [formatOneDec (calculateTargetPriceIncrease s.targetFrom s.targetTo) ++
        "% price target decrease"]
    else []) ++
  (if 8 ≤ getBrokerageScore s.brokerage ∧ s.brokerage ≠ "" then
      ["Rated by " ++ s.brokerage] else [])

/-- A minimal stock event: given ticker and action, every other string field
empty and event time 0. -/
def plainStock (tick act : String) : Stock :=
  { ticker := tick, company := "", action := act, brokerage := ""
    ratingFrom := "", ratingTo := "", targetFrom := "", targetTo := "", time := 0 }

/-- The end-to-end scenario event of the specification. -/
def upgradeStock : Stock :=
  { ticker := "AAPL", company := "Apple", action := "upgrade", brokerage := "Goldman Sachs"
    ratingFrom := "Neutral", ratingTo := "Buy", targetFrom := "$200.00", targetTo := "$244.00"
    time := 0 }

theorem bubbleMax_length (x : StockRecommendation) (l : List StockRecommendation) :
    ((bubbleMax x l).2).length = l.length := by
  induction l generalizing x with
  | nil => rfl
  | cons y ys ih => simp only [bubbleMax]; split_ifs <;> simp [ih]

theorem bubbleMax_perm (x : StockRecommendation) (l : List StockRecommendation) :
    List.Perm ((bubbleMax x l).1 :: (bubbleMax x l).2) (x :: l) := by
  induction l generalizing x with
  | nil => simp [bubbleMax]
  | cons y ys ih =>
    simp only [bubbleMax]; split_ifs with h
    · exact (List.Perm.swap x (bubbleMax y ys).1 (bubbleMax y ys).2).trans ((ih y).cons x)
    · exact ((List.Perm.swap y (bubbleMax x ys).1 (bubbleMax x ys).2).trans
        ((ih x).cons y)).trans (List.Perm.swap x y ys)

theorem exchangeSortAux_perm :
    ∀ (fuel : Nat) (l : List StockRecommendation), l.length ≤ fuel →
      List.Perm (exchangeSortAux fuel l) l := by
  intro fuel
  induction fuel with
  | zero =>
    intro l h
    rcases List.length_eq_zero.mp (Nat.le_zero.mp h) with rfl
    simp [exchangeSortAux]
  | succ n ih =>
    intro l h
    cases l with
    | nil => simp [exchangeSortAux]
    | cons x xs =>
      simp only [exchangeSortAux]
      have hlen : ((bubbleMax x xs).2).length ≤ n := by
        rw [bubbleMax_length]
        simpa using h
      exact ((ih _ hlen).cons _).trans (bubbleMax_perm x xs)

theorem exchangeSort_perm (l : List StockRecommendation) : List.Perm (exchangeSort l) l :=
  exchangeSortAux_perm l.length l (le_refl _)

theorem exchangeSort_length (l : List StockRecommendation) :
    (exchangeSort l).length = l.length :=
  (exchangeSort_perm l).length_eq

/-- C2, counterexample: with limit 0 and eleven events the scorer returns all
eleven recommendations, not the min(10, 11) = 10 the claim demands. -/
theorem getRecommendations_limit_zero_cex :
    (GetRecommendations 0 (List.replicate 11 (plainStock "A" "")) 0).length = 11
    ∧ min 10 (List.replicate 11 (plainStock "A" "")).length = 10 := by
  decide!

/-- C2, amended: the result length is min(limit, number of events) when limit
is positive, and the full event count otherwise (no default of 10 is applied
inside the scorer). -/
theorem getRecommendations_length (now : ℚ) (stocks : List Stock) (limit : ℤ) :
    (GetRecommendations now stocks limit).length =
      if 0 < limit then min limit.toNat stocks.length else stocks.length := by
  simp only [GetRecommendations]
  split_ifs with h0 h1 h2
  all_goals simp_all [List.length_take, exchangeSort_length, List.length_map]
  all_goals omega

/-- C3: the end-to-end scenario event (upgrade, Neutral to Buy, target $200 to
$244 for a 22 percent increase whose sub-score 11 is clamped to 10 before the
0.20 weighting, Goldman Sachs, two hours old) scores exactly 10 with the
documented reason string. -/
theorem calculateStockScore_scenario :
    calculateStockScore 2 upgradeStock =
      (10,
       "Recent upgrade; Rating improved to Buy; 22.0% price target increase; Rated by Goldman Sachs",
       22)
    ∧ calculateTargetPriceIncrease "$200.00" "$244.00" = 22 := by
  decide!

theorem getRatingImprovementScore_eq (ratingFrom ratingTo : String) :
    getRatingImprovementScore ratingFrom ratingTo =
      getRatingValue ratingTo * 2 + (getRatingValue ratingTo - getRatingValue ratingFrom) * 2 := by
  simp only [getRatingImprovementScore]
  split_ifs with h1 h2
  · ring
  · ring
  · have h : getRatingValue ratingFrom = getRatingValue ratingTo :=
      le_antisymm (not_lt.mp h2) (not_lt.mp h1)
    rw [h]; ring

/-- C4: the rating-transition sub-score is toValue*2 + (toValue-fromValue)*2
for every pair of rating strings; lookups go through lower-casing and trimming
with the documented ordinal table, empty and unrecognized ratings default to 3,
and Neutral to Buy scores 4*2 + 2 = 10. -/
theorem ratingImprovement_spec :
    (∀ ratingFrom ratingTo : String,
      getRatingImprovementScore ratingFrom ratingTo =
        getRatingValue ratingTo * 2 + (getRatingValue ratingTo - getRatingValue ratingFrom) * 2)
    ∧ (∀ r : String,
        List.lookup (toLowerStr (trimStr r)) ratingValues = none → getRatingValue r = 3)
    ∧ getRatingValue "" = 3
    ∧ getRatingValue "Strong Buy" = 5 ∧ getRatingValue "strong-buy" = 5
    ∧ getRatingValue "Buy" = 4 ∧ getRatingValue "Overweight" = 4
    ∧ getRatingValue "Outperform" = 4
    ∧ getRatingValue "Hold" = 3 ∧ getRatingValue "NEUTRAL" = 3
    ∧ getRatingValue "Underweight" = 2 ∧ getRatingValue "Underperform" = 2
    ∧ getRatingValue "Reduce" = 2
    ∧ getRatingValue "Sell" = 1
    ∧ getRatingValue "  Buy  " = 4
    ∧ getRatingImprovementScore "Neutral" "Buy" = 10 := by
  refine ⟨getRatingImprovementScore_eq, ?_, ?_, ?_, ?_, ?_, ?_, ?_, ?_, ?_, ?_, ?_, ?_, ?_, ?_, ?_⟩
  · intro r h
    simp [getRatingValue, h]
  · decide
  · decide
  · decide
  · decide
  · decide
  · decide
  · decide
  · decide
  · decide
  · decide
  · decide
  · decide
  · decide
  · decide!

/-- Witness for C4: an unrecognized rating string defaults to the neutral
value 3. -/
theorem ratingImprovement_spec_witness : getRatingValue "mystery rating" = 3 :=
  ratingImprovement_spec.2.1 "mystery rating" (by decide)

theorem containsSeq_iff (needle hay : List Char) :
    containsSeq needle hay = true ↔ needle <:+: hay := by
  induction hay with
  | nil =>
    simp [containsSeq, List.isEmpty_iff, List.infix_nil]
  | cons c rest ih =>
    simp [containsSeq, List.infix_cons_iff, ih, List.isPrefixOf_iff_prefix]

/-- C5: the action sub-score is decided by case-insensitive substring matching
with the documented first-match-wins precedence, and the action "Upgraded price
target" scores 10 because "upgrade" is checked before the target rules. -/
theorem actionScore_spec :
    (∀ action : String,
      getActionScore action =
        (if "upgrade".data <:+: (toLowerStr action).data then 10
         else if "initiated".data <:+: (toLowerStr action).data
             ∨ "initiate".data <:+: (toLowerStr action).data then 8
         else if "target".data <:+: (toLowerStr action).data
             ∧ "raised".data <:+: (toLowerStr action).data then 7
         else if "reiterate".data <:+: (toLowerStr action).data
             ∨ "maintain".data <:+: (toLowerStr action).data then 6
         else if "target".data <:+: (toLowerStr action).data
             ∧ "lowered".data <:+: (toLowerStr action).data then 3
         else if "downgrade".data <:+: (toLowerStr action).data then 2
         else 5))
    ∧ getActionScore "Upgraded price target" = 10 := by
  constructor
  · intro action
    simp only [getActionScore, strContains]
    split_ifs <;> simp_all [containsSeq_iff]
  · decide

/-- C8: for every limit query value, the handler passes the scorer a limit in
[1, 50]; an absent (empty) or non-numeric value defaults to 10. -/
theorem recommendationsLimit_spec :
    (∀ value : String,
      1 ≤ recommendationsLimit value ∧ recommendationsLimit value ≤ 50)
    ∧ recommendationsLimit "" = 10 ∧ recommendationsLimit "abc" = 10 := by
  refine ⟨?_, by decide, by decide⟩
  intro v
  simp only [recommendationsLimit]
  constructor <;> split_ifs <;> omega

theorem joinSemicolon_ne_empty (l : List String) (h0 : l ≠ []) (h1 : ∀ x ∈ l, x ≠ "") :
    joinSemicolon l ≠ "" := by
  match l with
  | [] => exact absurd rfl h0
  | [x] =>
    simpa [joinSemicolon] using h1 x (List.mem_singleton.mpr rfl)
  | x :: y :: rest =>
    intro hc
    have hlen := congrArg String.length hc
    simp [joinSemicolon, String.length_append] at hlen
    exact absurd hlen.1.2 (by decide)

theorem specHighlights_mem_ne_empty (s : Stock) : ∀ x ∈ specHighlights s, x ≠ "" := by
  have hgen : ∀ pre suf : String, 0 < pre.length + suf.length → pre ++ suf ≠ "" := by
    intro pre suf hpos hc
    have hl := congrArg String.length hc
    simp [String.length_append] at hl
    omega
  intro x hx
  simp only [specHighlights, List.mem_append] at hx
  rcases hx with ((h | h) | h) | h
  · split_ifs at h
    · rcases List.mem_singleton.mp h with rfl
      refine hgen "Recent " s.action ?_
      have h7 : ("Recent " : String).length = 7 := rfl
      omega
    · exact absurd h (List.not_mem_nil x)
  · split_ifs at h
    · rcases List.mem_singleton.mp h with rfl
      refine hgen "Rating improved to " s.ratingTo ?_
      have h19 : ("Rating improved to " : String).length = 19 := rfl
      omega
    · exact absurd h (List.not_mem_nil x)
  · split_ifs at h
    · rcases List.mem_singleton.mp h with rfl
      refine hgen (formatOneDec (calculateTargetPriceIncrease s.targetFrom s.targetTo))
        "% price target increase" ?_
      have h23 : ("% price target increase" : String).length = 23 := rfl
      omega
    · rcases List.mem_singleton.mp h with rfl
      refine hgen (formatOneDec (calculateTargetPriceIncrease s.targetFrom s.targetTo))
        "% price target decrease" ?_
      have h23 : ("% price target decrease" : String).length = 23 := rfl
      omega
    · exact absurd h (List.not_mem_nil x)
  · split_ifs at h
    · rcases List.mem_singleton.mp h with rfl
      refine hgen "Rated by " s.brokerage ?_
      have h9 : ("Rated by " : String).length = 9 := rfl
      omega
    · exact absurd h (List.not_mem_nil x)

theorem calcReason_eq (now : ℚ) (s : Stock) :
    (calculateStockScore now s).2.1 =
      (if joinSemicolon (specHighlights s) = "" then "Positive outlook"
       else joinSemicolon (specHighlights s)) := by
  simp only [calculateStockScore, specHighlights]
  by_cases hA : 3 < getActionScore s.action <;>
  by_cases hR : 3 < getRatingImprovementScore s.ratingFrom s.ratingTo <;>
  by_cases hB : 8 ≤ getBrokerageScore s.brokerage ∧ s.brokerage ≠ "" <;>
  by_cases h5 : 5 < calculateTargetPriceIncrease s.targetFrom s.targetTo <;>
  by_cases hm5 : calculateTargetPriceIncrease s.targetFrom s.targetTo < -5 <;>
  by_cases h0 : calculateTargetPriceIncrease s.targetFrom s.targetTo = 0 <;>
  first
  | (exfalso; linarith)
  | simp [hA, hR, hB, h5, hm5, h0, (by norm_num : ¬(5:ℚ) < 0), (by norm_num : ¬(0:ℚ) < -5)]

/-- C7: the reason string is the "; "-joined highlight list in the fixed order
action, rating, price, brokerage with the documented trigger conditions
(recency contributes no highlight: specHighlights does not read the event
time), and collapses to the literal "Positive outlook" when no highlight
fired. -/
theorem calculateReason_spec (now : ℚ) (s : Stock) :
    (calculateStockScore now s).2.1 =
      if specHighlights s = [] then "Positive outlook"
      else joinSemicolon (specHighlights s) := by
  rw [calcReason_eq]
  by_cases h : specHighlights s = []
  · simp [h, joinSemicolon]
  · rw [if_neg (joinSemicolon_ne_empty _ h (specHighlights_mem_ne_empty s)), if_neg h]

theorem mem_infix_joinSemicolon {x : String} :
    ∀ {l : List String}, x ∈ l → x.data <:+: (joinSemicolon l).data := by
  intro l
  induction l with
  | nil => intro hx; exact absurd hx (List.not_mem_nil x)
  | cons y t ih =>
    intro hx
    cases t with
    | nil =>
      rcases List.mem_singleton.mp hx with rfl
      exact List.infix_rfl
    | cons z t2 =>
      have hdata : (joinSemicolon (y :: z :: t2)).data
          = (y.data ++ "; ".data) ++ (joinSemicolon (z :: t2)).data := by
        simp [joinSemicolon, String.data_append, List.append_assoc]
      rw [hdata]
      rcases List.mem_cons.mp hx with rfl | hx2
      · exact ⟨[], "; ".data ++ (joinSemicolon (z :: t2)).data, by simp [List.append_assoc]⟩
      · exact (ih hx2).trans (List.IsSuffix.isInfix (List.suffix_append _ _))

/-- C9: when ratingFrom equals ratingTo and the common rating has ordinal value
at least 2, the rating sub-score is toValue*2, it exceeds 3, and the "Rating
improved to" highlight appears in the reason string even though no improvement
occurred. -/
theorem ratingHighlight_spec (now : ℚ) (s : Stock)
    (heq : s.ratingFrom = s.ratingTo) (hge : 2 ≤ getRatingValue s.ratingTo) :
    getRatingImprovementScore s.ratingFrom s.ratingTo = getRatingValue s.ratingTo * 2
    ∧ 3 < getRatingImprovementScore s.ratingFrom s.ratingTo
    ∧ ("Rating improved to " ++ s.ratingTo).data <:+:
        ((calculateStockScore now s).2.1).data := by
  have hscore : getRatingImprovementScore s.ratingFrom s.ratingTo
      = getRatingValue s.ratingTo * 2 := by
    rw [getRatingImprovementScore_eq, heq]; ring
  have h3 : 3 < getRatingImprovementScore s.ratingFrom s.ratingTo := by
    rw [hscore]; linarith
  refine ⟨hscore, h3, ?_⟩
  have hmem : ("Rating improved to " ++ s.ratingTo) ∈ specHighlights s := by
    simp [specHighlights, h3]
  have hne : specHighlights s ≠ [] := by
    intro hc
    rw [hc] at hmem
    exact (List.not_mem_nil _) hmem
  rw [calcReason_eq,
    if_neg (joinSemicolon_ne_empty _ hne (specHighlights_mem_ne_empty s))]
  exact mem_infix_joinSemicolon hmem

/-- Witness for C9: both ratings empty (ordinal value 3), sub-score 6 and the
highlight still appears. -/
theorem ratingHighlight_spec_witness :
    getRatingImprovementScore (plainStock "T" "").ratingFrom (plainStock "T" "").ratingTo
      = getRatingValue (plainStock "T" "").ratingTo * 2
    ∧ 3 < getRatingImprovementScore (plainStock "T" "").ratingFrom (plainStock "T" "").ratingTo
    ∧ ("Rating improved to " ++ (plainStock "T" "").ratingTo).data <:+:
        ((calculateStockScore 0 (plainStock "T" "")).2.1).data :=
  ratingHighlight_spec 0 (plainStock "T" "") rfl (by decide)

end StockBackend
